import Mathlib

/-!
Formal model of the asset-pipeline build scripts of this repository, together
with theorems about the geometric core (content-bounds computation, viewBox
re-centering and resizing), the transform-baking path rewriter, the
texture-atlas grid packer and the sheet exporter.

Numeric conventions: JavaScript numbers are modelled as rationals (ℚ);
binary floating-point representation is elided.  `Number.prototype.toFixed(3)`
is modelled by `round3` below (round half towards +∞ at the third decimal,
which agrees with `toFixed` on the tie-breaking rule "pick the larger n").
-/

set_option maxHeartbeats 1000000

namespace SvgTransform

/-! ### Model of `Tools/svg scripts/recenteresizeformat/transform copy.mjs`

An SVG document is modelled by the data this script actually reads:
the `viewBox`, `width` and `height` attributes of the `<svg>` element and,
for every `<path>` element found under it, its `d` attribute together with
the chain of nodes from the path itself up towards the root (each with its
tag name and the `translate(tx, ty)` extracted from its `transform`
attribute by `parseTransform`, `none` when the attribute is absent or has
no `translate(...)` match).

The external library call `getPathBBox d` (svg-path-commander) is kept
abstract as a function `String → Option PathBBox`; `none` models the
exception the script catches ("Skip invalid paths").  The `viewBox`
attribute is modelled as the already-tokenised list of its numbers, and
`width`/`height` as `none` when absent or non-numeric (`parseFloat`
returning `NaN`). -/

/-- Bounding box as returned by `getPathBBox`: `x`/`y` are the left/top and
`x2`/`y2` the right/bottom edges. -/
structure PathBBox where
  x : ℚ
  y : ℚ
  x2 : ℚ
  y2 : ℚ
deriving DecidableEq

/-- Result type of `parseViewBox` / `getContentBounds`. -/
structure Bounds where
  x : ℚ
  y : ℚ
  width : ℚ
  height : ℚ
deriving DecidableEq

/-- A `<path>` element: its `d` attribute and the chain of nodes starting at
the element itself and walking to the document root, each recorded as
(tag name, translate extracted from its `transform` attribute). -/
structure PathElem where
  d : Option String
  chain : List (String × Option (ℚ × ℚ))
deriving DecidableEq

/-- The attributes of the `<svg>` element this script reads and writes, plus
its `<path>` descendants. -/
structure SvgDoc where
  viewBox : Option (List ℚ)
  width : Option ℚ
  height : Option ℚ
  paths : List PathElem
deriving DecidableEq

/-- `TARGET_WIDTH` from the script. -/
def TARGET_WIDTH : ℚ := 400

/-- `TARGET_HEIGHT` from the script. -/
def TARGET_HEIGHT : ℚ := 200

/-- `parseTransform`: the regex extraction of `translate(tx, ty)` is modelled
as the pre-extracted optional pair; absence (or no match) yields `{tx: 0, ty: 0}`. -/
def parseTransform : Option (ℚ × ℚ) → ℚ × ℚ
  | none => (0, 0)
  | some t => t

/-- `parseViewBox`: a viewBox token list parses iff it has exactly 4 parts. -/
def parseViewBox (parts : List ℚ) : Option Bounds :=
  if parts.length = 4 then
    some ⟨parts.getD 0 0, parts.getD 1 0, parts.getD 2 0, parts.getD 3 0⟩
  else none

/-- `parseFloat(attr) || 100`: a missing or non-numeric attribute gives `NaN`
(falsy), and an explicit `0` is also falsy, so both default to `100`. -/
def jsNumberOr100 : Option ℚ → ℚ
  | none => 100
  | some v => if v = 0 then 100 else v

/-- `getEffectiveViewBox`: the parsed `viewBox` attribute when present
(`null` if it does not parse), else `0 0 width height` with the `|| 100`
defaults. -/
def getEffectiveViewBox (doc : SvgDoc) : Option Bounds :=
  match doc.viewBox with
  | some parts => parseViewBox parts
  | none => some ⟨0, 0, jsNumberOr100 doc.width, jsNumberOr100 doc.height⟩

/-- `isInsideDefs`: walk from the element up to the root looking for a
`<defs>` ancestor. -/
def isInsideDefs (p : PathElem) : Bool :=
  p.chain.any (fun nd => nd.1 == "defs")

/-- The transform-accumulation loop of `getContentBounds`: starting at the
path element, walk up while the node is not the `<svg>` element, summing the
`translate` of each node's `transform` attribute. -/
def accumTranslate (p : PathElem) : ℚ × ℚ :=
  ((p.chain.takeWhile (fun nd => nd.1 != "svg")).map (fun nd => parseTransform nd.2)).foldl
    (fun acc t => (acc.1 + t.1, acc.2 + t.2)) (0, 0)

/-- The per-path body of the `getContentBounds` loop: a path contributes a
translated box `(left, top, right, bottom)` unless it sits inside `<defs>`,
has no (or an empty, hence falsy) `d` attribute, or `getPathBBox` throws. -/
def pathBox (getPathBBox : String → Option PathBBox) (p : PathElem) :
    Option (ℚ × ℚ × ℚ × ℚ) :=
  if isInsideDefs p then none
  else
    match p.d with
    | none => none
    | some d =>
      if d = "" then none
      else
        match getPathBBox d with
        | none => none
        | some bbox =>
          let t := accumTranslate p
          some (bbox.x + t.1, bbox.y + t.2, bbox.x2 + t.1, bbox.y2 + t.2)

/-- Combine the running min/max quadruple with one more translated box;
this is the `Math.min`/`Math.max` update of `getContentBounds`. -/
def combineBox (a b : ℚ × ℚ × ℚ × ℚ) : ℚ × ℚ × ℚ × ℚ :=
  (min a.1 b.1, min a.2.1 b.2.1, max a.2.2.1 b.2.2.1, max a.2.2.2 b.2.2.2)

/-- One step of the `getContentBounds` fold.  The script initialises the
running bounds to `±Infinity` with a `foundPaths` flag; this is modelled as
`Option`: `none` is the initial not-yet-found state (`Math.min(Infinity, l)`
is `l`, so the first box is taken verbatim, exactly as here). -/
def boundsStep (getPathBBox : String → Option PathBBox)
    (acc : Option (ℚ × ℚ × ℚ × ℚ)) (p : PathElem) : Option (ℚ × ℚ × ℚ × ℚ) :=
  match pathBox getPathBBox p with
  | none => acc
  | some q =>
    match acc with
    | none => some q
    | some a => some (combineBox a q)

/-- `getContentBounds`: fold the translated per-path boxes; if no path
produced a box, fall back to `getEffectiveViewBox`. -/
def getContentBounds (getPathBBox : String → Option PathBBox) (doc : SvgDoc) :
    Option Bounds :=
  match doc.paths.foldl (boundsStep getPathBBox) none with
  | some (mnx, mny, mxx, mxy) => some ⟨mnx, mny, mxx - mnx, mxy - mny⟩
  | none => getEffectiveViewBox doc

/-- `toFixed(3)` as a rational rounding: round half towards +∞ at the third
decimal. -/
def round3 (q : ℚ) : ℚ := (round (q * 1000) : ℚ) / 1000

/-- Return value of `transformResize`. -/
structure ResizeResult where
  scale : ℚ
  newContentWidth : ℚ
  newContentHeight : ℚ
  originalWidth : ℚ
  originalHeight : ℚ
deriving DecidableEq

/-- `transformResize` (Transform 1): scale the effective viewBox to fit the
400×200 target, write the scaled size into the `width`/`height` attributes
(`toFixed(3)`), and set the `viewBox` attribute only when it was absent.
Returns `none` when `getEffectiveViewBox` returns `null` (the early
`if (!vb) return`). -/
def transformResize (doc : SvgDoc) : Option (ResizeResult × SvgDoc) :=
  match getEffectiveViewBox doc with
  | none => none
  | some vb =>
    let scaleX := TARGET_WIDTH / vb.width
    let scaleY := TARGET_HEIGHT / vb.height
    let scale := min scaleX scaleY
    let newContentWidth := vb.width * scale
    let newContentHeight := vb.height * scale
    some (⟨scale, newContentWidth, newContentHeight, vb.width, vb.height⟩,
      { doc with
        width := some (round3 newContentWidth)
        height := some (round3 newContentHeight)
        viewBox :=
          match doc.viewBox with
          | some v => some v
          | none => some [vb.x, vb.y, vb.width, vb.height] })

/-- Return value of `transformCenter`. -/
structure CenterResult where
  offsetX : ℚ
  offsetY : ℚ
  newVBWidth : ℚ
  newVBHeight : ℚ
deriving DecidableEq

/-- `transformCenter` (Transform 2): build a 2:1 viewBox around the content
bounding box, centre the content in it, write it back with `toFixed(3)` and
set the display size to 400×200.  Returns `none` when `getContentBounds`
returns `null` (the early `if (!contentBounds) return`). -/
def transformCenter (getPathBBox : String → Option PathBBox) (doc : SvgDoc) :
    Option (CenterResult × SvgDoc) :=
  match getContentBounds getPathBBox doc with
  | none => none
  | some contentBounds =>
    let contentAspect := contentBounds.width / contentBounds.height
    let targetAspect := TARGET_WIDTH / TARGET_HEIGHT
    let newVBWidth :=
      if targetAspect < contentAspect then contentBounds.width
      else contentBounds.height * targetAspect
    let newVBHeight :=
      if targetAspect < contentAspect then contentBounds.width / targetAspect
      else contentBounds.height
    let contentCenterX := contentBounds.x + contentBounds.width / 2
    let contentCenterY := contentBounds.y + contentBounds.height / 2
    let offsetX := contentCenterX - newVBWidth / 2
    let offsetY := contentCenterY - newVBHeight / 2
    some (⟨offsetX, offsetY, newVBWidth, newVBHeight⟩,
      { doc with
        viewBox := some [round3 offsetX, round3 offsetY, round3 newVBWidth, round3 newVBHeight]
        width := some TARGET_WIDTH
        height := some TARGET_HEIGHT })

/-- C1: for every SVG document whose content bounding box (as computed by
`getContentBounds`) has positive width and height, `transformCenter`
re-centers the viewBox so that the centre of the content bounding box
coincides with the centre of the new viewBox: `offsetX + newVBWidth/2` equals
the content centre x and `offsetY + newVBHeight/2` equals the content centre
y (exactly, on the values the script computes; the `viewBox` attribute then
receives their 3-decimal roundings). -/
theorem transformCenter_recenters_content (getPathBBox : String → Option PathBBox)
    (doc : SvgDoc) (cb : Bounds) (hcb : getContentBounds getPathBBox doc = some cb)
    (hw : 0 < cb.width) (hh : 0 < cb.height) :
    ∃ r doc2, transformCenter getPathBBox doc = some (r, doc2) ∧
      r.offsetX + r.newVBWidth / 2 = cb.x + cb.width / 2 ∧
      r.offsetY + r.newVBHeight / 2 = cb.y + cb.height / 2 ∧
      doc2.viewBox =
        some [round3 r.offsetX, round3 r.offsetY, round3 r.newVBWidth, round3 r.newVBHeight] := by
  unfold transformCenter
  rw [hcb]
  refine ⟨_, _, rfl, ?_, ?_, rfl⟩
  · dsimp only
    ring
  · dsimp only
    ring

/-- Witness for C1 at a concrete document: a single path with bounding box
(0, 0)–(10, 10) and no transforms. -/
theorem transformCenter_recenters_content_witness :
    getContentBounds (fun _ => some ⟨0, 0, 10, 10⟩)
        ⟨none, none, none, [⟨some "p", []⟩]⟩ = some ⟨0, 0, 10, 10⟩ ∧
      (0 : ℚ) < 10 ∧
      (∃ r doc2, transformCenter (fun _ => some ⟨0, 0, 10, 10⟩)
          ⟨none, none, none, [⟨some "p", []⟩]⟩ = some (r, doc2) ∧
        r.offsetX + r.newVBWidth / 2 = (0 : ℚ) + 10 / 2 ∧
        r.offsetY + r.newVBHeight / 2 = (0 : ℚ) + 10 / 2 ∧
        doc2.viewBox =
          some [round3 r.offsetX, round3 r.offsetY, round3 r.newVBWidth, round3 r.newVBHeight]) := by
  have hcb : getContentBounds (fun _ => some ⟨0, 0, 10, 10⟩)
      ⟨none, none, none, [⟨some "p", []⟩]⟩ = some ⟨0, 0, 10, 10⟩ := by
    simp [getContentBounds, boundsStep, pathBox, isInsideDefs, accumTranslate, parseTransform]
  refine ⟨hcb, by norm_num, ?_⟩
  exact transformCenter_recenters_content _ _ _ hcb (by norm_num) (by norm_num)

theorem round_mono_rat {a b : ℚ} (h : a ≤ b) : round a ≤ round b := by
  rw [round_eq, round_eq]
  exact Int.floor_le_floor (by linarith)

theorem round3_le_int (q : ℚ) (n : ℤ) (h : q ≤ (n : ℚ)) : round3 q ≤ (n : ℚ) := by
  have h1 : round (q * 1000) ≤ round (((n : ℚ)) * 1000) :=
    round_mono_rat (by nlinarith)
  have h2 : round (((n : ℚ)) * 1000) = n * 1000 := by
    rw [show ((n : ℚ) * 1000) = ((n * 1000 : ℤ) : ℚ) by push_cast; ring, round_intCast]
  unfold round3
  rw [div_le_iff (by norm_num : (0 : ℚ) < 1000)]
  calc (round (q * 1000) : ℚ) ≤ ((n * 1000 : ℤ) : ℚ) := by exact_mod_cast h1.trans_eq h2
    _ = (n : ℚ) * 1000 := by push_cast; ring

theorem foldl_min_le_init {α : Type _} [LinearOrder α] (l : List α) (a : α) :
    l.foldl min a ≤ a := by
  induction l generalizing a with
  | nil => exact le_refl a
  | cons b l ih => exact le_trans (ih (min a b)) (min_le_left a b)

theorem foldl_min_le_of_mem {α : Type _} [LinearOrder α] (l : List α) (a x : α)
    (hx : x ∈ l) : l.foldl min a ≤ x := by
  induction l generalizing a with
  | nil => cases hx
  | cons b l ih =>
    rcases List.mem_cons.mp hx with rfl | hx2
    · exact le_trans (foldl_min_le_init l (min a x)) (min_le_right a x)
    · exact ih (min a b) hx2

theorem le_foldl_min {α : Type _} [LinearOrder α] (l : List α) (a c : α)
    (ha : c ≤ a) (h : ∀ x ∈ l, c ≤ x) : c ≤ l.foldl min a := by
  induction l generalizing a with
  | nil => exact ha
  | cons b l ih =>
    exact ih (min a b) (le_min ha (h b (List.mem_cons_self b l)))
      (fun x hx => h x (List.mem_cons_of_mem b hx))

theorem init_le_foldl_max {α : Type _} [LinearOrder α] (l : List α) (a : α) :
    a ≤ l.foldl max a := by
  induction l generalizing a with
  | nil => exact le_refl a
  | cons b l ih => exact le_trans (le_max_left a b) (ih (max a b))

theorem mem_le_foldl_max {α : Type _} [LinearOrder α] (l : List α) (a x : α)
    (hx : x ∈ l) : x ≤ l.foldl max a := by
  induction l generalizing a with
  | nil => cases hx
  | cons b l ih =>
    rcases List.mem_cons.mp hx with rfl | hx2
    · exact le_trans (le_max_right a x) (init_le_foldl_max l (max a x))
    · exact ih (max a b) hx2

theorem foldl_max_le {α : Type _} [LinearOrder α] (l : List α) (a c : α)
    (ha : a ≤ c) (h : ∀ x ∈ l, x ≤ c) : l.foldl max a ≤ c := by
  induction l generalizing a with
  | nil => exact ha
  | cons b l ih =>
    exact ih (max a b) (max_le ha (h b (List.mem_cons_self b l)))
      (fun x hx => h x (List.mem_cons_of_mem b hx))

theorem foldl_combineBox_proj (qs : List (ℚ × ℚ × ℚ × ℚ)) (a : ℚ × ℚ × ℚ × ℚ) :
    qs.foldl combineBox a =
      ((qs.map (fun q => q.1)).foldl min a.1,
       (qs.map (fun q => q.2.1)).foldl min a.2.1,
       (qs.map (fun q => q.2.2.1)).foldl max a.2.2.1,
       (qs.map (fun q => q.2.2.2)).foldl max a.2.2.2) := by
  induction qs generalizing a with
  | nil => rfl
  | cons q qs ih => simp [List.foldl_cons, List.map_cons, ih, combineBox]

theorem foldl_boundsStep_some (getPathBBox : String → Option PathBBox)
    (l : List PathElem) (a : ℚ × ℚ × ℚ × ℚ) :
    l.foldl (boundsStep getPathBBox) (some a) =
      some ((l.filterMap (pathBox getPathBBox)).foldl combineBox a) := by
  induction l generalizing a with
  | nil => rfl
  | cons p l ih =>
    cases hp : pathBox getPathBBox p with
    | none => simp [List.foldl_cons, boundsStep, hp, List.filterMap_cons, ih]
    | some q => simp [List.foldl_cons, boundsStep, hp, List.filterMap_cons, ih]

theorem foldl_boundsStep_none (getPathBBox : String → Option PathBBox)
    (l : List PathElem) :
    l.foldl (boundsStep getPathBBox) none =
      match l.filterMap (pathBox getPathBBox) with
      | [] => none
      | q :: qs => some (qs.foldl combineBox q) := by
  induction l with
  | nil => rfl
  | cons p l ih =>
    cases hp : pathBox getPathBBox p with
    | none => simp [List.foldl_cons, boundsStep, hp, List.filterMap_cons, ih]
    | some q => simp [List.foldl_cons, boundsStep, hp, List.filterMap_cons,
        foldl_boundsStep_some]

/-- C2: when at least one path outside `<defs>` has a `d` attribute that
parses, `getContentBounds` returns the smallest axis-aligned box containing
every translated per-path box (each path's `getPathBBox` box shifted by the
accumulated `translate` of the path and its ancestors): every such box is
contained in the result, and any box containing all of them contains the
result, so `x`/`y` are the minima of the translated lefts/tops and
`x + width` / `y + height` the maxima of the translated rights/bottoms. -/
theorem getContentBounds_is_smallest_box (getPathBBox : String → Option PathBBox)
    (doc : SvgDoc) (p0 : PathElem) (hp0 : p0 ∈ doc.paths)
    (hgood : (pathBox getPathBBox p0).isSome) :
    ∃ b, getContentBounds getPathBBox doc = some b ∧
      (∀ p ∈ doc.paths, ∀ lf tp rt bt,
        pathBox getPathBBox p = some (lf, tp, rt, bt) →
        b.x ≤ lf ∧ b.y ≤ tp ∧ rt ≤ b.x + b.width ∧ bt ≤ b.y + b.height) ∧
      (∀ X Y X2 Y2 : ℚ,
        (∀ p ∈ doc.paths, ∀ lf tp rt bt,
          pathBox getPathBBox p = some (lf, tp, rt, bt) →
          X ≤ lf ∧ Y ≤ tp ∧ rt ≤ X2 ∧ bt ≤ Y2) →
        X ≤ b.x ∧ Y ≤ b.y ∧ b.x + b.width ≤ X2 ∧ b.y + b.height ≤ Y2) := by
  obtain ⟨q0, hq0⟩ := Option.isSome_iff_exists.mp hgood
  have hq0mem : q0 ∈ doc.paths.filterMap (pathBox getPathBBox) :=
    List.mem_filterMap.mpr ⟨p0, hp0, hq0⟩
  rcases hqs : doc.paths.filterMap (pathBox getPathBBox) with _ | ⟨q, qs⟩
  · rw [hqs] at hq0mem
    cases hq0mem
  · have hform : getContentBounds getPathBBox doc =
        some ⟨(qs.map (fun q => q.1)).foldl min q.1,
              (qs.map (fun q => q.2.1)).foldl min q.2.1,
              (qs.map (fun q => q.2.2.1)).foldl max q.2.2.1 -
                (qs.map (fun q => q.1)).foldl min q.1,
              (qs.map (fun q => q.2.2.2)).foldl max q.2.2.2 -
                (qs.map (fun q => q.2.1)).foldl min q.2.1⟩ := by
      unfold getContentBounds
      simp only [foldl_boundsStep_none, hqs, foldl_combineBox_proj]
    refine ⟨_, hform, ?_, ?_⟩
    · intro p hp lf tp rt bt hpb
      have hmem : (lf, tp, rt, bt) ∈ q :: qs := by
        rw [← hqs]
        exact List.mem_filterMap.mpr ⟨p, hp, hpb⟩
      have hx : (qs.map (fun q => q.1)).foldl min q.1 ≤ lf := by
        rcases List.mem_cons.mp hmem with rfl | hmem2
        · exact foldl_min_le_init _ _
        · exact foldl_min_le_of_mem _ _ _ (List.mem_map_of_mem _ hmem2)
      have hy : (qs.map (fun q => q.2.1)).foldl min q.2.1 ≤ tp := by
        rcases List.mem_cons.mp hmem with rfl | hmem2
        · exact foldl_min_le_init _ _
        · exact foldl_min_le_of_mem _ _ _ (List.mem_map_of_mem _ hmem2)
      have hx2 : rt ≤ (qs.map (fun q => q.2.2.1)).foldl max q.2.2.1 := by
        rcases List.mem_cons.mp hmem with rfl | hmem2
        · exact init_le_foldl_max _ _
        · exact mem_le_foldl_max _ _ _ (List.mem_map_of_mem _ hmem2)
      have hy2 : bt ≤ (qs.map (fun q => q.2.2.2)).foldl max q.2.2.2 := by
        rcases List.mem_cons.mp hmem with rfl | hmem2
        · exact init_le_foldl_max _ _
        · exact mem_le_foldl_max _ _ _ (List.mem_map_of_mem _ hmem2)
      exact ⟨hx, hy, by dsimp only; linarith, by dsimp only; linarith⟩
    · intro X Y X2 Y2 hall
      have hof : ∀ r ∈ q :: qs, X ≤ r.1 ∧ Y ≤ r.2.1 ∧ r.2.2.1 ≤ X2 ∧ r.2.2.2 ≤ Y2 := by
        intro r hr
        rw [← hqs] at hr
        obtain ⟨p, hp, hpb⟩ := List.mem_filterMap.mp hr
        obtain ⟨h1, h2, h3, h4⟩ := hall p hp r.1 r.2.1 r.2.2.1 r.2.2.2 (by
          rw [hpb])
        exact ⟨h1, h2, h3, h4⟩
      have hq := hof q (List.mem_cons_self q qs)
      have hX : X ≤ (qs.map (fun q => q.1)).foldl min q.1 :=
        le_foldl_min _ _ _ hq.1 (fun x hx => by
          obtain ⟨r, hr, rfl⟩ := List.mem_map.mp hx
          exact (hof r (List.mem_cons_of_mem q hr)).1)
      have hY : Y ≤ (qs.map (fun q => q.2.1)).foldl min q.2.1 :=
        le_foldl_min _ _ _ hq.2.1 (fun x hx => by
          obtain ⟨r, hr, rfl⟩ := List.mem_map.mp hx
          exact (hof r (List.mem_cons_of_mem q hr)).2.1)
      have hX2 : (qs.map (fun q => q.2.2.1)).foldl max q.2.2.1 ≤ X2 :=
        foldl_max_le _ _ _ hq.2.2.1 (fun x hx => by
          obtain ⟨r, hr, rfl⟩ := List.mem_map.mp hx
          exact (hof r (List.mem_cons_of_mem q hr)).2.2.1)
      have hY2 : (qs.map (fun q => q.2.2.2)).foldl max q.2.2.2 ≤ Y2 :=
        foldl_max_le _ _ _ hq.2.2.2 (fun x hx => by
          obtain ⟨r, hr, rfl⟩ := List.mem_map.mp hx
          exact (hof r (List.mem_cons_of_mem q hr)).2.2.2)
      exact ⟨hX, hY, by dsimp only; linarith, by dsimp only; linarith⟩

/-- Witness for C2: two paths with boxes (0,0)–(4,4) and (2,2)–(10,6), the
second translated by (1, 1); the union box is (0,0)–(11,7). -/
theorem getContentBounds_is_smallest_box_witness :
    (⟨some "p1", []⟩ : PathElem) ∈
        ([⟨some "p1", []⟩, ⟨some "p2", [("g", some (1, 1))]⟩] : List PathElem) ∧
      (pathBox (fun d => if d = "p1" then some ⟨0, 0, 4, 4⟩ else some ⟨2, 2, 10, 6⟩)
        ⟨some "p1", []⟩).isSome = true ∧
      (∃ b, getContentBounds
          (fun d => if d = "p1" then some ⟨0, 0, 4, 4⟩ else some ⟨2, 2, 10, 6⟩)
          ⟨none, none, none, [⟨some "p1", []⟩, ⟨some "p2", [("g", some (1, 1))]⟩]⟩ =
          some b ∧
        (∀ p ∈ ([⟨some "p1", []⟩, ⟨some "p2", [("g", some (1, 1))]⟩] : List PathElem),
          ∀ lf tp rt bt,
          pathBox (fun d => if d = "p1" then some ⟨0, 0, 4, 4⟩ else some ⟨2, 2, 10, 6⟩) p =
            some (lf, tp, rt, bt) →
          b.x ≤ lf ∧ b.y ≤ tp ∧ rt ≤ b.x + b.width ∧ bt ≤ b.y + b.height) ∧
        (∀ X Y X2 Y2 : ℚ,
          (∀ p ∈ ([⟨some "p1", []⟩, ⟨some "p2", [("g", some (1, 1))]⟩] : List PathElem),
            ∀ lf tp rt bt,
            pathBox (fun d => if d = "p1" then some ⟨0, 0, 4, 4⟩ else some ⟨2, 2, 10, 6⟩) p =
              some (lf, tp, rt, bt) →
            X ≤ lf ∧ Y ≤ tp ∧ rt ≤ X2 ∧ bt ≤ Y2) →
          X ≤ b.x ∧ Y ≤ b.y ∧ b.x + b.width ≤ X2 ∧ b.y + b.height ≤ Y2)) := by
  refine ⟨List.mem_cons_self _ _, ?_, ?_⟩
  · simp [pathBox, isInsideDefs]
  · exact getContentBounds_is_smallest_box _ _ _ (List.mem_cons_self _ _)
      (by simp [pathBox, isInsideDefs])

/-- C5: paths whose `d` attribute fails to parse (as well as paths inside
`<defs>` or without a usable `d`) are skipped without aborting: the result
equals the result on the sub-document keeping only the contributing paths;
when no path contributes a box the script falls back to the effective
viewBox, which is the parsed `viewBox` attribute when present and
`0 0 width height` (each dimension defaulting to 100) otherwise. -/
theorem getContentBounds_skips_and_falls_back (getPathBBox : String → Option PathBBox)
    (doc : SvgDoc) :
    getContentBounds getPathBBox doc =
      getContentBounds getPathBBox
        { doc with paths := doc.paths.filter (fun p => (pathBox getPathBBox p).isSome) } ∧
    ((∀ p ∈ doc.paths, pathBox getPathBBox p = none) →
      getContentBounds getPathBBox doc = getEffectiveViewBox doc) ∧
    (∀ parts, doc.viewBox = some parts → parts.length = 4 →
      getEffectiveViewBox doc =
        some ⟨parts.getD 0 0, parts.getD 1 0, parts.getD 2 0, parts.getD 3 0⟩) ∧
    (doc.viewBox = none →
      getEffectiveViewBox doc = some ⟨0, 0, jsNumberOr100 doc.width, jsNumberOr100 doc.height⟩) := by
  have hfm : (doc.paths.filter (fun p => (pathBox getPathBBox p).isSome)).filterMap
      (pathBox getPathBBox) = doc.paths.filterMap (pathBox getPathBBox) := by
    induction doc.paths with
    | nil => rfl
    | cons p l ih =>
      cases hp : pathBox getPathBBox p with
      | none => simp [List.filter_cons, List.filterMap_cons, hp, ih]
      | some q => simp [List.filter_cons, List.filterMap_cons, hp, ih]
  refine ⟨?_, ?_, ?_, ?_⟩
  · unfold getContentBounds
    rw [foldl_boundsStep_none, foldl_boundsStep_none]
    dsimp only
    rw [hfm]
    rfl
  · intro hall
    unfold getContentBounds
    rw [foldl_boundsStep_none, List.filterMap_eq_nil.mpr hall]
  · intro parts hvb hlen
    simp [getEffectiveViewBox, hvb, parseViewBox, hlen]
  · intro hvb
    simp [getEffectiveViewBox, hvb]

/-- Witness for C5: one parseable path, one unparseable path, plus the two
fallback shapes on documents with and without a `viewBox` attribute. -/
theorem getContentBounds_skips_and_falls_back_witness :
    (getContentBounds (fun d => if d = "ok" then some ⟨0, 0, 4, 4⟩ else none)
        ⟨none, some 30, none, [⟨some "ok", []⟩, ⟨some "bad", []⟩]⟩ =
      getContentBounds (fun d => if d = "ok" then some ⟨0, 0, 4, 4⟩ else none)
        ⟨none, some 30, none,
          ([⟨some "ok", []⟩, ⟨some "bad", []⟩] : List PathElem).filter
            (fun p => (pathBox (fun d => if d = "ok" then some ⟨0, 0, 4, 4⟩ else none) p).isSome)⟩) ∧
    ((∀ p ∈ ([⟨some "ok", []⟩, ⟨some "bad", []⟩] : List PathElem),
        pathBox (fun d => if d = "ok" then some ⟨0, 0, 4, 4⟩ else none) p = none) →
      getContentBounds (fun d => if d = "ok" then some ⟨0, 0, 4, 4⟩ else none)
        ⟨none, some 30, none, [⟨some "ok", []⟩, ⟨some "bad", []⟩]⟩ =
      getEffectiveViewBox ⟨none, some 30, none, [⟨some "ok", []⟩, ⟨some "bad", []⟩]⟩) ∧
    (∀ parts, (⟨none, some 30, none, [⟨some "ok", []⟩, ⟨some "bad", []⟩]⟩ : SvgDoc).viewBox =
        some parts → parts.length = 4 →
      getEffectiveViewBox ⟨none, some 30, none, [⟨some "ok", []⟩, ⟨some "bad", []⟩]⟩ =
        some ⟨parts.getD 0 0, parts.getD 1 0, parts.getD 2 0, parts.getD 3 0⟩) ∧
    ((⟨none, some 30, none, [⟨some "ok", []⟩, ⟨some "bad", []⟩]⟩ : SvgDoc).viewBox = none →
      getEffectiveViewBox ⟨none, some 30, none, [⟨some "ok", []⟩, ⟨some "bad", []⟩]⟩ =
        some ⟨0, 0, jsNumberOr100 (some 30), jsNumberOr100 none⟩) :=
  getContentBounds_skips_and_falls_back
    (fun d => if d = "ok" then some ⟨0, 0, 4, 4⟩ else none)
    ⟨none, some 30, none, [⟨some "ok", []⟩, ⟨some "bad", []⟩]⟩

/-- C8: for every content bounding box with positive width and height, the
viewBox produced by `transformCenter` has exactly 2:1 aspect ratio
(`newVBWidth = 2 * newVBHeight` before rounding) and contains the content
bounding box with non-negative margins; vertical margins are added when the
content aspect exceeds 2, horizontal margins otherwise. -/
theorem transformCenter_aspect_and_containment (getPathBBox : String → Option PathBBox)
    (doc : SvgDoc) (cb : Bounds) (hcb : getContentBounds getPathBBox doc = some cb)
    (hw : 0 < cb.width) (hh : 0 < cb.height) :
    ∃ r doc2, transformCenter getPathBBox doc = some (r, doc2) ∧
      r.newVBWidth = 2 * r.newVBHeight ∧
      r.offsetX ≤ cb.x ∧ r.offsetY ≤ cb.y ∧
      cb.x + cb.width ≤ r.offsetX + r.newVBWidth ∧
      cb.y + cb.height ≤ r.offsetY + r.newVBHeight ∧
      (2 < cb.width / cb.height →
        r.newVBWidth = cb.width ∧ cb.height < r.newVBHeight ∧
        r.offsetX = cb.x ∧ r.offsetY < cb.y) ∧
      (cb.width / cb.height ≤ 2 →
        r.newVBHeight = cb.height ∧ cb.width ≤ r.newVBWidth ∧
        r.offsetY = cb.y ∧ r.offsetX ≤ cb.x) := by
  unfold transformCenter
  rw [hcb]
  have hT : TARGET_WIDTH / TARGET_HEIGHT = 2 := by norm_num [TARGET_WIDTH, TARGET_HEIGHT]
  refine ⟨_, _, rfl, ?_⟩
  dsimp only
  rw [hT]
  by_cases h : (2 : ℚ) < cb.width / cb.height
  · rw [if_pos h, if_pos h]
    have hwh : 2 * cb.height < cb.width := by
      have := (lt_div_iff hh).mp h
      linarith
    refine ⟨by ring, by linarith, by linarith, by linarith, by linarith, ?_, ?_⟩
    · intro _
      refine ⟨rfl, by linarith, by ring, by linarith⟩
    · intro h2
      exact absurd h (not_lt.mpr h2)
  · rw [if_neg h, if_neg h]
    have hwh : cb.width ≤ 2 * cb.height := by
      have := (div_le_iff hh).mp (not_lt.mp h)
      linarith
    refine ⟨by ring, by linarith, by linarith, by linarith, by linarith, ?_, ?_⟩
    · intro h2
      exact absurd h2 (not_lt.mpr (not_lt.mp h))
    · intro _
      refine ⟨rfl, by linarith, by ring, by linarith⟩

/-- Witness for C8 at a concrete document: content bounding box (0, 0)–(10, 10). -/
theorem transformCenter_aspect_and_containment_witness :
    getContentBounds (fun _ => some ⟨0, 0, 10, 10⟩)
        ⟨none, none, none, [⟨some "p", []⟩]⟩ = some ⟨0, 0, 10, 10⟩ ∧
      (0 : ℚ) < 10 ∧
      (∃ r doc2, transformCenter (fun _ => some ⟨0, 0, 10, 10⟩)
          ⟨none, none, none, [⟨some "p", []⟩]⟩ = some (r, doc2) ∧
        r.newVBWidth = 2 * r.newVBHeight ∧
        r.offsetX ≤ (0 : ℚ) ∧ r.offsetY ≤ (0 : ℚ) ∧
        (0 : ℚ) + 10 ≤ r.offsetX + r.newVBWidth ∧
        (0 : ℚ) + 10 ≤ r.offsetY + r.newVBHeight ∧
        (2 < (10 : ℚ) / 10 →
          r.newVBWidth = 10 ∧ (10 : ℚ) < r.newVBHeight ∧
          r.offsetX = 0 ∧ r.offsetY < 0) ∧
        ((10 : ℚ) / 10 ≤ 2 →
          r.newVBHeight = 10 ∧ (10 : ℚ) ≤ r.newVBWidth ∧
          r.offsetY = 0 ∧ r.offsetX ≤ 0)) := by
  have hcb : getContentBounds (fun _ => some ⟨0, 0, 10, 10⟩)
      ⟨none, none, none, [⟨some "p", []⟩]⟩ = some ⟨0, 0, 10, 10⟩ := by
    simp [getContentBounds, boundsStep, pathBox, isInsideDefs, accumTranslate, parseTransform]
  refine ⟨hcb, by norm_num, ?_⟩
  exact transformCenter_aspect_and_containment _ _ _ hcb (by norm_num) (by norm_num)

/-- C9: for every SVG whose effective viewBox has positive width and height,
`transformResize` scales by `s = min(400/vb.width, 200/vb.height)`: the
scaled size `vb.width * s` × `vb.height * s` (written into the `width` and
`height` attributes, 3-decimal rounded) never exceeds 400 × 200, at least
one dimension hits its target exactly, the width/height ratio is preserved,
and the `viewBox` attribute is left unchanged when one was present. -/
theorem transformResize_fits_target (doc : SvgDoc) (vb : Bounds)
    (hvb : getEffectiveViewBox doc = some vb) (hw : 0 < vb.width) (hh : 0 < vb.height) :
    ∃ r doc2, transformResize doc = some (r, doc2) ∧
      r.scale = min (TARGET_WIDTH / vb.width) (TARGET_HEIGHT / vb.height) ∧
      r.newContentWidth = vb.width * r.scale ∧
      r.newContentHeight = vb.height * r.scale ∧
      doc2.width = some (round3 r.newContentWidth) ∧
      doc2.height = some (round3 r.newContentHeight) ∧
      r.newContentWidth ≤ TARGET_WIDTH ∧
      r.newContentHeight ≤ TARGET_HEIGHT ∧
      round3 r.newContentWidth ≤ TARGET_WIDTH ∧
      round3 r.newContentHeight ≤ TARGET_HEIGHT ∧
      (r.newContentWidth = TARGET_WIDTH ∨ r.newContentHeight = TARGET_HEIGHT) ∧
      r.newContentWidth / r.newContentHeight = vb.width / vb.height ∧
      (∀ v, doc.viewBox = some v → doc2.viewBox = some v) := by
  unfold transformResize
  rw [hvb]
  refine ⟨_, _, rfl, ?_⟩
  dsimp only
  have hTW : (0 : ℚ) < TARGET_WIDTH := by norm_num [TARGET_WIDTH]
  have hTH : (0 : ℚ) < TARGET_HEIGHT := by norm_num [TARGET_HEIGHT]
  set s := min (TARGET_WIDTH / vb.width) (TARGET_HEIGHT / vb.height) with hs
  have hs1 : s ≤ TARGET_WIDTH / vb.width := min_le_left _ _
  have hs2 : s ≤ TARGET_HEIGHT / vb.height := min_le_right _ _
  have hspos : 0 < s := lt_min (div_pos hTW hw) (div_pos hTH hh)
  have hwle : vb.width * s ≤ TARGET_WIDTH := by
    calc vb.width * s ≤ vb.width * (TARGET_WIDTH / vb.width) :=
          mul_le_mul_of_nonneg_left hs1 hw.le
      _ = TARGET_WIDTH := by field_simp
  have hhle : vb.height * s ≤ TARGET_HEIGHT := by
    calc vb.height * s ≤ vb.height * (TARGET_HEIGHT / vb.height) :=
          mul_le_mul_of_nonneg_left hs2 hh.le
      _ = TARGET_HEIGHT := by field_simp
  have hr3w : round3 (vb.width * s) ≤ TARGET_WIDTH := by
    have := round3_le_int (vb.width * s) 400 (by simpa [TARGET_WIDTH] using hwle)
    simpa [TARGET_WIDTH] using this
  have hr3h : round3 (vb.height * s) ≤ TARGET_HEIGHT := by
    have := round3_le_int (vb.height * s) 200 (by simpa [TARGET_HEIGHT] using hhle)
    simpa [TARGET_HEIGHT] using this
  have hexact : vb.width * s = TARGET_WIDTH ∨ vb.height * s = TARGET_HEIGHT := by
    rcases le_total (TARGET_WIDTH / vb.width) (TARGET_HEIGHT / vb.height) with hle | hle
    · left
      rw [hs, min_eq_left hle]
      field_simp
    · right
      rw [hs, min_eq_right hle]
      field_simp
  have hratio : vb.width * s / (vb.height * s) = vb.width / vb.height :=
    mul_div_mul_right _ _ (ne_of_gt hspos)
  refine ⟨rfl, rfl, rfl, rfl, rfl, hwle, hhle, hr3w, hr3h, hexact, hratio, ?_⟩
  intro v hv
  simp [hv]

/-- Witness for C9 at a concrete document: no viewBox attribute, width 100,
height 100 (effective viewBox `0 0 100 100`). -/
theorem transformResize_fits_target_witness :
    getEffectiveViewBox ⟨none, some 100, some 100, []⟩ = some ⟨0, 0, 100, 100⟩ ∧
      (0 : ℚ) < 100 ∧
      (∃ r doc2, transformResize ⟨none, some 100, some 100, []⟩ = some (r, doc2) ∧
        r.scale = min (TARGET_WIDTH / 100) (TARGET_HEIGHT / 100) ∧
        r.newContentWidth = 100 * r.scale ∧
        r.newContentHeight = 100 * r.scale ∧
        doc2.width = some (round3 r.newContentWidth) ∧
        doc2.height = some (round3 r.newContentHeight) ∧
        r.newContentWidth ≤ TARGET_WIDTH ∧
        r.newContentHeight ≤ TARGET_HEIGHT ∧
        round3 r.newContentWidth ≤ TARGET_WIDTH ∧
        round3 r.newContentHeight ≤ TARGET_HEIGHT ∧
        (r.newContentWidth = TARGET_WIDTH ∨ r.newContentHeight = TARGET_HEIGHT) ∧
        r.newContentWidth / r.newContentHeight = (100 : ℚ) / 100 ∧
        (∀ v, (⟨none, some 100, some 100, []⟩ : SvgDoc).viewBox = some v →
          doc2.viewBox = some v)) := by
  have hvb : getEffectiveViewBox ⟨none, some 100, some 100, []⟩ = some ⟨0, 0, 100, 100⟩ := by
    simp [getEffectiveViewBox, jsNumberOr100]
  refine ⟨hvb, by norm_num, ?_⟩
  exact transformResize_fits_target _ _ hvb (by norm_num) (by norm_num)

end SvgTransform

namespace BakeTransforms

/-! ### Model of `Tools/svg scripts/bake_transforms.cjs`

`parsePath` tokenises a `d` attribute into commands, each a letter with a
list of numeric arguments; the parsed form is taken as the starting point
(`PathCmd`).  `applyTranslate` mutates the argument lists in place; it is
modelled as a function returning the new command list.  The in-range
behaviour of each argument loop is captured index-wise (for a malformed
argument count JavaScript would also append `NaN` entries past the end,
which has no rational counterpart and is elided). -/

/-- A parsed path command: `{ type, args }` as produced by `parsePath`. -/
structure PathCmd where
  type : Char
  args : List ℚ
deriving DecidableEq

/-- The `M`/`L`/`T` loop (step 2), the `C` loop (step 6) and the `S`/`Q`
loop (step 4) all add `dx` to even-indexed and `dy` to odd-indexed
arguments. -/
def translatePairs (dx dy : ℚ) (args : List ℚ) : List ℚ :=
  args.mapIdx fun i a => if i % 2 = 0 then a + dx else a + dy

/-- The `A` loop (step 7): only the endpoint, arguments 5 and 6 of each
group of seven, is shifted. -/
def translateArc (dx dy : ℚ) (args : List ℚ) : List ℚ :=
  args.mapIdx fun i a => if i % 7 = 5 then a + dx else if i % 7 = 6 then a + dy else a

/-- The leading-`m` special case: only `args[0]` and `args[1]` are shifted. -/
def translateLeadingMove (dx dy : ℚ) (args : List ℚ) : List ℚ :=
  match args with
  | [] => []
  | [a] => [a + dx]
  | a :: b :: rest => (a + dx) :: (b + dy) :: rest

/-- The body of the `applyTranslate` forEach: dispatch on the command letter
(`type === type.toUpperCase()` distinguishes absolute from relative). -/
def applyTranslateCmd (dx dy : ℚ) (index : ℕ) (cmd : PathCmd) : PathCmd :=
  if cmd.type.toUpper = cmd.type then
    if cmd.type = 'M' ∨ cmd.type = 'L' ∨ cmd.type = 'T' then
      { cmd with args := translatePairs dx dy cmd.args }
    else if cmd.type = 'H' then { cmd with args := cmd.args.map (· + dx) }
    else if cmd.type = 'V' then { cmd with args := cmd.args.map (· + dy) }
    else if cmd.type = 'C' then { cmd with args := translatePairs dx dy cmd.args }
    else if cmd.type = 'S' ∨ cmd.type = 'Q' then
      { cmd with args := translatePairs dx dy cmd.args }
    else if cmd.type = 'A' then { cmd with args := translateArc dx dy cmd.args }
    else cmd
  else
    if index = 0 ∧ cmd.type = 'm' then
      { cmd with args := translateLeadingMove dx dy cmd.args }
    else cmd

/-- `applyTranslate(commands, dx, dy)`. -/
def applyTranslate (commands : List PathCmd) (dx dy : ℚ) : List PathCmd :=
  commands.mapIdx (applyTranslateCmd dx dy)

theorem translatePairs_length (dx dy : ℚ) (args : List ℚ) :
    (translatePairs dx dy args).length = args.length := by
  simp [translatePairs]

theorem translatePairs_getD (dx dy : ℚ) (args : List ℚ) (k : ℕ)
    (h : 2 * k + 1 < args.length) :
    (translatePairs dx dy args).getD (2 * k) 0 = args.getD (2 * k) 0 + dx ∧
    (translatePairs dx dy args).getD (2 * k + 1) 0 = args.getD (2 * k + 1) 0 + dy := by
  have h0 : 2 * k < args.length := by omega
  have l1 : (translatePairs dx dy args).length = args.length := translatePairs_length dx dy args
  constructor
  · rw [List.getD_eq_getElem _ _ (by omega : 2 * k < args.length),
      List.getD_eq_getElem _ _ (show 2 * k < (translatePairs dx dy args).length by omega)]
    unfold translatePairs
    rw [List.getElem_mapIdx]
    have hm : (2 * k) % 2 = 0 := by omega
    simp [hm]
  · rw [List.getD_eq_getElem _ _ h,
      List.getD_eq_getElem _ _ (show 2 * k + 1 < (translatePairs dx dy args).length by omega)]
    unfold translatePairs
    rw [List.getElem_mapIdx]
    have hm : (2 * k + 1) % 2 = 1 := by omega
    simp [hm]

theorem translateArc_length (dx dy : ℚ) (args : List ℚ) :
    (translateArc dx dy args).length = args.length := by
  simp [translateArc]

theorem translateArc_getD (dx dy : ℚ) (args : List ℚ) (k : ℕ)
    (h : 7 * k + 6 < args.length) :
    (translateArc dx dy args).getD (7 * k + 5) 0 = args.getD (7 * k + 5) 0 + dx ∧
    (translateArc dx dy args).getD (7 * k + 6) 0 = args.getD (7 * k + 6) 0 + dy ∧
    (∀ m, m ≤ 4 → (translateArc dx dy args).getD (7 * k + m) 0 = args.getD (7 * k + m) 0) := by
  have l1 : (translateArc dx dy args).length = args.length := translateArc_length dx dy args
  refine ⟨?_, ?_, ?_⟩
  · rw [List.getD_eq_getElem _ _ (show 7 * k + 5 < args.length by omega),
      List.getD_eq_getElem _ _ (show 7 * k + 5 < (translateArc dx dy args).length by omega)]
    unfold translateArc
    rw [List.getElem_mapIdx]
    have hm : (7 * k + 5) % 7 = 5 := by omega
    simp [hm]
  · rw [List.getD_eq_getElem _ _ h,
      List.getD_eq_getElem _ _ (show 7 * k + 6 < (translateArc dx dy args).length by omega)]
    unfold translateArc
    rw [List.getElem_mapIdx]
    have hm : (7 * k + 6) % 7 = 6 := by omega
    simp [hm]
  · intro m hm4
    rw [List.getD_eq_getElem _ _ (show 7 * k + m < args.length by omega),
      List.getD_eq_getElem _ _ (show 7 * k + m < (translateArc dx dy args).length by omega)]
    unfold translateArc
    rw [List.getElem_mapIdx]
    have hm5 : (7 * k + m) % 7 ≠ 5 := by omega
    have hm6 : (7 * k + m) % 7 ≠ 6 := by omega
    simp [hm5, hm6]

theorem translateLeadingMove_length (dx dy : ℚ) (args : List ℚ) :
    (translateLeadingMove dx dy args).length = args.length := by
  match args with
  | [] => rfl
  | [a] => rfl
  | a :: b :: rest => rfl

theorem translateLeadingMove_getD (dx dy : ℚ) (args : List ℚ) (h : 2 ≤ args.length) :
    (translateLeadingMove dx dy args).getD 0 0 = args.getD 0 0 + dx ∧
    (translateLeadingMove dx dy args).getD 1 0 = args.getD 1 0 + dy ∧
    (∀ k, 2 ≤ k → (translateLeadingMove dx dy args).getD k 0 = args.getD k 0) := by
  match args with
  | [] => simp at h
  | [a] => simp at h
  | a :: b :: rest =>
    refine ⟨rfl, rfl, ?_⟩
    intro k hk
    obtain ⟨k2, rfl⟩ : ∃ k2, k = k2 + 2 := ⟨k - 2, by omega⟩
    rfl

/-- C4: `applyTranslate` shifts by `(dx, dy)` every coordinate pair of the
absolute commands `M`, `L`, `T`, `C`, `S`, `Q`, shifts `H` arguments by `dx`
and `V` arguments by `dy`, shifts only the endpoint (last two of each group
of seven arguments) of absolute `A` commands, and leaves relative
(lowercase) commands unchanged except a leading `m`, whose first
coordinate pair is shifted by `(dx, dy)`. -/
theorem applyTranslate_spec (dx dy : ℚ) (cmds : List PathCmd) (i : ℕ)
    (hi : i < cmds.length) :
    (applyTranslate cmds dx dy).length = cmds.length ∧
    ((applyTranslate cmds dx dy).getD i ⟨'Z', []⟩).type = (cmds.getD i ⟨'Z', []⟩).type ∧
    (((cmds.getD i ⟨'Z', []⟩).type = 'M' ∨ (cmds.getD i ⟨'Z', []⟩).type = 'L' ∨
      (cmds.getD i ⟨'Z', []⟩).type = 'T' ∨ (cmds.getD i ⟨'Z', []⟩).type = 'C' ∨
      (cmds.getD i ⟨'Z', []⟩).type = 'S' ∨ (cmds.getD i ⟨'Z', []⟩).type = 'Q') →
      ((applyTranslate cmds dx dy).getD i ⟨'Z', []⟩).args.length =
        (cmds.getD i ⟨'Z', []⟩).args.length ∧
      ∀ k, 2 * k + 1 < (cmds.getD i ⟨'Z', []⟩).args.length →
        ((applyTranslate cmds dx dy).getD i ⟨'Z', []⟩).args.getD (2 * k) 0 =
          (cmds.getD i ⟨'Z', []⟩).args.getD (2 * k) 0 + dx ∧
        ((applyTranslate cmds dx dy).getD i ⟨'Z', []⟩).args.getD (2 * k + 1) 0 =
          (cmds.getD i ⟨'Z', []⟩).args.getD (2 * k + 1) 0 + dy) ∧
    ((cmds.getD i ⟨'Z', []⟩).type = 'H' →
      ((applyTranslate cmds dx dy).getD i ⟨'Z', []⟩).args =
        (cmds.getD i ⟨'Z', []⟩).args.map (· + dx)) ∧
    ((cmds.getD i ⟨'Z', []⟩).type = 'V' →
      ((applyTranslate cmds dx dy).getD i ⟨'Z', []⟩).args =
        (cmds.getD i ⟨'Z', []⟩).args.map (· + dy)) ∧
    ((cmds.getD i ⟨'Z', []⟩).type = 'A' →
      ((applyTranslate cmds dx dy).getD i ⟨'Z', []⟩).args.length =
        (cmds.getD i ⟨'Z', []⟩).args.length ∧
      ∀ k, 7 * k + 6 < (cmds.getD i ⟨'Z', []⟩).args.length →
        ((applyTranslate cmds dx dy).getD i ⟨'Z', []⟩).args.getD (7 * k + 5) 0 =
          (cmds.getD i ⟨'Z', []⟩).args.getD (7 * k + 5) 0 + dx ∧
        ((applyTranslate cmds dx dy).getD i ⟨'Z', []⟩).args.getD (7 * k + 6) 0 =
          (cmds.getD i ⟨'Z', []⟩).args.getD (7 * k + 6) 0 + dy ∧
        ∀ m, m ≤ 4 →
          ((applyTranslate cmds dx dy).getD i ⟨'Z', []⟩).args.getD (7 * k + m) 0 =
            (cmds.getD i ⟨'Z', []⟩).args.getD (7 * k + m) 0) ∧
    ((cmds.getD i ⟨'Z', []⟩).type.toUpper ≠ (cmds.getD i ⟨'Z', []⟩).type →
      (¬(i = 0 ∧ (cmds.getD i ⟨'Z', []⟩).type = 'm') →
        (applyTranslate cmds dx dy).getD i ⟨'Z', []⟩ = cmds.getD i ⟨'Z', []⟩) ∧
      (i = 0 ∧ (cmds.getD i ⟨'Z', []⟩).type = 'm' →
        ((applyTranslate cmds dx dy).getD i ⟨'Z', []⟩).args.length =
          (cmds.getD i ⟨'Z', []⟩).args.length ∧
        (2 ≤ (cmds.getD i ⟨'Z', []⟩).args.length →
          ((applyTranslate cmds dx dy).getD i ⟨'Z', []⟩).args.getD 0 0 =
            (cmds.getD i ⟨'Z', []⟩).args.getD 0 0 + dx ∧
          ((applyTranslate cmds dx dy).getD i ⟨'Z', []⟩).args.getD 1 0 =
            (cmds.getD i ⟨'Z', []⟩).args.getD 1 0 + dy) ∧
        ∀ k, 2 ≤ k →
          ((applyTranslate cmds dx dy).getD i ⟨'Z', []⟩).args.getD k 0 =
            (cmds.getD i ⟨'Z', []⟩).args.getD k 0)) := by
  have hlen : (applyTranslate cmds dx dy).length = cmds.length := by
    simp [applyTranslate]
  have hA : (applyTranslate cmds dx dy).getD i ⟨'Z', []⟩ =
      applyTranslateCmd dx dy i (cmds.getD i ⟨'Z', []⟩) := by
    rw [List.getD_eq_getElem _ _ (show i < (applyTranslate cmds dx dy).length by omega),
      List.getD_eq_getElem _ _ hi]
    unfold applyTranslate
    rw [List.getElem_mapIdx]
  set c := cmds.getD i ⟨'Z', []⟩ with hc
  rw [hA]
  refine ⟨hlen, ?_, ?_, ?_, ?_, ?_, ?_⟩
  · unfold applyTranslateCmd
    split_ifs <;> rfl
  · intro htype
    have harg : (applyTranslateCmd dx dy i c).args = translatePairs dx dy c.args := by
      rcases htype with h | h | h | h | h | h <;>
        simp [applyTranslateCmd, h]
    rw [harg]
    exact ⟨translatePairs_length dx dy c.args, fun k hk => translatePairs_getD dx dy c.args k hk⟩
  · intro htype
    simp [applyTranslateCmd, htype]
  · intro htype
    simp [applyTranslateCmd, htype]
  · intro htype
    have harg : (applyTranslateCmd dx dy i c).args = translateArc dx dy c.args := by
      simp [applyTranslateCmd, htype]
    rw [harg]
    exact ⟨translateArc_length dx dy c.args, fun k hk => translateArc_getD dx dy c.args k hk⟩
  · intro hlow
    have hbr : applyTranslateCmd dx dy i c =
        if i = 0 ∧ c.type = 'm' then { c with args := translateLeadingMove dx dy c.args }
        else c := by
      unfold applyTranslateCmd
      rw [if_neg hlow]
    constructor
    · intro hnot
      rw [hbr, if_neg hnot]
    · intro hyes
      rw [hbr, if_pos hyes]
      refine ⟨translateLeadingMove_length dx dy c.args, ?_, ?_⟩
      · intro h2
        exact ⟨(translateLeadingMove_getD dx dy c.args h2).1,
          (translateLeadingMove_getD dx dy c.args h2).2.1⟩
      · intro k hk
        match hargs : c.args with
        | [] =>
          match k with
          | k2 + 2 => rfl
        | [a] =>
          match k, hk with
          | 1 + 1, _ => rfl
          | k2 + 2, _ => rfl
        | a :: b :: rest =>
          exact (translateLeadingMove_getD dx dy (a :: b :: rest) (by simp)).2.2 k hk

/-- Witness for C4 at a concrete command list: a leading relative `m`, an
absolute `L` and a relative `h`. -/
theorem applyTranslate_spec_witness :
    (0 < 3 ∧
      ((applyTranslate [⟨'m', [1, 2, 3, 4]⟩, ⟨'L', [5, 6]⟩, ⟨'h', [7]⟩] 10 20).getD 1
        ⟨'Z', []⟩).type = (([⟨'m', [1, 2, 3, 4]⟩, ⟨'L', [5, 6]⟩, ⟨'h', [7]⟩] :
          List PathCmd).getD 1 ⟨'Z', []⟩).type) := by
  refine ⟨by norm_num, ?_⟩
  exact (applyTranslate_spec 10 20 [⟨'m', [1, 2, 3, 4]⟩, ⟨'L', [5, 6]⟩, ⟨'h', [7]⟩] 1
    (by norm_num)).2.1

/-! ### The per-file error handling of `bake_transforms.cjs` (claim C6)

`bakeTransforms(filePath)` wraps all its work in `try { ... } catch (e) {
console.error(...) }`: a caught error is logged and the function returns
normally, and `main` goes on to the next `.svg` file, incrementing `count`
for every file.  The per-file work (read, regex match, parse, translate,
write) is abstracted as a `process` function returning `Except`; an
`Except.error` models a thrown exception. -/

/-- Outcome of one `bakeTransforms(filePath)` call: either the file was
handled normally or the exception was caught and logged. -/
inductive FileOutcome where
  | baked
  | errorLogged (msg : String)
deriving DecidableEq

/-- `bakeTransforms`: the catch block turns an exception into a logged
error; nothing is rethrown and the process does not exit. -/
def bakeTransforms {α β : Type} (process : α → Except String β) (file : α) : FileOutcome :=
  match process file with
  | Except.ok _ => FileOutcome.baked
  | Except.error e => FileOutcome.errorLogged e

/-- The `main` loop of the script: call `bakeTransforms` on every svg file
and count the processed files. -/
def bakeMain {α β : Type} (process : α → Except String β) (files : List α) :
    List FileOutcome × ℕ :=
  (files.map (bakeTransforms process), files.length)

/-- C6 (amended): a caught per-file error is logged and skipped, and the
loop continues with the remaining files: every file gets an outcome, the
outcome of file `i` depends only on that file's own processing result, and
the final count covers all files regardless of caught errors. -/
theorem bakeMain_processes_every_file {α β : Type} (process : α → Except String β)
    (files : List α) (i : ℕ) (hi : i < files.length) :
    (bakeMain process files).2 = files.length ∧
    (bakeMain process files).1.length = files.length ∧
    (bakeMain process files).1.getD i (FileOutcome.errorLogged "") =
      bakeTransforms process (files.get ⟨i, hi⟩) ∧
    (∀ e, process (files.get ⟨i, hi⟩) = Except.error e →
      (bakeMain process files).1.getD i (FileOutcome.errorLogged "") =
        FileOutcome.errorLogged e) := by
  have hmap : (bakeMain process files).1.getD i (FileOutcome.errorLogged "") =
      bakeTransforms process (files.get ⟨i, hi⟩) := by
    unfold bakeMain
    rw [List.getD_eq_getElem _ _ (show i < (files.map (bakeTransforms process)).length by
      simpa using hi)]
    simp
  refine ⟨rfl, by simp [bakeMain], hmap, ?_⟩
  intro e he
  rw [hmap]
  unfold bakeTransforms
  rw [he]

/-- Witness for C6's amended theorem at two concrete files. -/
theorem bakeMain_processes_every_file_witness :
    (bakeMain (fun r => r) [Except.error "boom", Except.ok ()]).2 = 2 ∧
    (bakeMain (fun r => r) [Except.error "boom", Except.ok ()]).1.length = 2 ∧
    (bakeMain (fun r => r) [Except.error "boom", Except.ok ()]).1.getD 1
        (FileOutcome.errorLogged "") =
      bakeTransforms (fun r => r)
        (([Except.error "boom", Except.ok ()] : List (Except String Unit)).get ⟨1, by norm_num⟩) ∧
    (∀ e, (fun (r : Except String Unit) => r)
        (([Except.error "boom", Except.ok ()] : List (Except String Unit)).get ⟨1, by norm_num⟩) =
        Except.error e →
      (bakeMain (fun r => r) [Except.error "boom", Except.ok ()]).1.getD 1
        (FileOutcome.errorLogged "") = FileOutcome.errorLogged e) :=
  bakeMain_processes_every_file (fun r => r) [Except.error "boom", Except.ok ()] 1 (by norm_num)

/-- C6 counterexample: with a first file whose processing throws, the caught
error does not stop the run: the script still processes the second file
(outcome `baked` at index 1) and counts both files, so a caught error does
not cause the process to exit before the remaining files. -/
theorem bakeMain_continues_after_caught_error :
    bakeMain (fun (r : Except String Unit) => r) [Except.error "boom", Except.ok ()] =
      ([FileOutcome.errorLogged "boom", FileOutcome.baked], 2) ∧
    (bakeMain (fun (r : Except String Unit) => r)
      [Except.error "boom", Except.ok ()]).1.getD 1 (FileOutcome.errorLogged "") =
      FileOutcome.baked ∧
    (bakeMain (fun (r : Except String Unit) => r)
      [Except.error "boom", Except.ok ()]).1.length ≠ 1 := by
  refine ⟨rfl, rfl, by norm_num [bakeMain]⟩

end BakeTransforms

namespace TimelineAtlas

/-! ### Model of `Tools/TimelineAtlas scripts/buildTimelineAtlas.mjs`

The configuration constants and the grid-placement loop of `buildAtlas`.
Rendering an SVG to a white PNG (`renderSvgToWhitePng` + `convertToWhite`,
external library work on the filesystem) is abstracted as a `render`
oracle `ℕ → Bool`: `false` models the per-icon `catch` branch ("Error
processing ..."), after which the loop continues with the next icon.  The
sorted icon-id list stands for
`Object.keys(iconMap).map(parseInt).sort((a, b) => a - b)`.  Each produced
entry is recorded together with its loop index `i`, which determines the
grid cell; `buildAtlasFrames` projects away the index, giving the `frames`
map of the spritesheet JSON in insertion order. -/

/-- `CONFIG.iconSize`. -/
def iconSize : ℕ := 64

/-- `CONFIG.atlasWidth`. -/
def atlasWidth : ℕ := 4096

/-- `CONFIG.atlasHeight`. -/
def atlasHeight : ℕ := 4096

/-- `iconsPerRow = Math.floor(atlasWidth / iconSize)`. -/
def iconsPerRow : ℕ := atlasWidth / iconSize

/-- `maxIcons = iconsPerRow * Math.floor(atlasHeight / iconSize)`. -/
def maxIcons : ℕ := iconsPerRow * (atlasHeight / iconSize)

/-- A frame rectangle of the spritesheet JSON. -/
structure Frame where
  x : ℕ
  y : ℕ
  w : ℕ
  h : ℕ
deriving DecidableEq

/-- `iconId.toString().padStart(4, '0')`. -/
def padStart4 (n : ℕ) : String :=
  let s := toString n
  if s.length < 4 then String.mk (List.replicate (4 - s.length) '0' ++ s.data) else s

/-- The grid cell of loop index `i`:
`x = (i % iconsPerRow) * iconSize`, `y = Math.floor(i / iconsPerRow) * iconSize`,
`w = h = iconSize`. -/
def frameFor (i : ℕ) : Frame :=
  ⟨i % iconsPerRow * iconSize, i / iconsPerRow * iconSize, iconSize, iconSize⟩

/-- The `buildAtlas` loop over the sorted icon ids, carrying the loop index:
a successfully rendered icon contributes `(i, frameId, frame)`; a failed one
is caught, logged and skipped, and the loop continues. -/
def buildAtlasEntries (render : ℕ → Bool) : ℕ → List ℕ → List (ℕ × String × Frame)
  | _, [] => []
  | i, iconId :: rest =>
    if render iconId then
      (i, padStart4 iconId, frameFor i) :: buildAtlasEntries render (i + 1) rest
    else
      buildAtlasEntries render (i + 1) rest

/-- The `frames` map of the spritesheet JSON (key–value list in insertion
order). -/
def buildAtlasFrames (render : ℕ → Bool) (iconIds : List ℕ) : List (String × Frame) :=
  (buildAtlasEntries render 0 iconIds).map (fun e => (e.2.1, e.2.2))

theorem mem_buildAtlasEntries (render : ℕ → Bool) (ids : List ℕ) (k i : ℕ)
    (hi : i < ids.length) (hr : render (ids.getD i 0) = true) :
    (k + i, padStart4 (ids.getD i 0), frameFor (k + i)) ∈ buildAtlasEntries render k ids := by
  induction ids generalizing k i with
  | nil => cases hi
  | cons id rest ih =>
    match i with
    | 0 =>
      have hr0 : render id = true := hr
      unfold buildAtlasEntries
      rw [if_pos hr0, Nat.add_zero]
      exact List.mem_cons_self _ _
    | i2 + 1 =>
      have hstep : (k + (i2 + 1), padStart4 ((id :: rest).getD (i2 + 1) 0),
          frameFor (k + (i2 + 1))) =
          ((k + 1) + i2, padStart4 (rest.getD i2 0), frameFor ((k + 1) + i2)) := by
        have : k + (i2 + 1) = (k + 1) + i2 := by omega
        rw [this]
        rfl
      rw [hstep]
      unfold buildAtlasEntries
      by_cases hr0 : render id
      · rw [if_pos hr0]
        exact List.mem_cons_of_mem _ (ih (k + 1) i2 (by simpa using hi) hr)
      · rw [if_neg hr0]
        exact ih (k + 1) i2 (by simpa using hi) hr

theorem buildAtlasEntries_shape (render : ℕ → Bool) (ids : List ℕ) (k : ℕ)
    (e : ℕ × String × Frame) (he : e ∈ buildAtlasEntries render k ids) :
    k ≤ e.1 ∧ e.1 < k + ids.length ∧ e.2.2 = frameFor e.1 := by
  induction ids generalizing k with
  | nil => cases he
  | cons id rest ih =>
    unfold buildAtlasEntries at he
    by_cases hr0 : render id
    · rw [if_pos hr0] at he
      rcases List.mem_cons.mp he with rfl | he2
      · exact ⟨le_refl k, by simp, rfl⟩
      · obtain ⟨h1, h2, h3⟩ := ih (k + 1) he2
        exact ⟨by omega, by simp; omega, h3⟩
    · rw [if_neg hr0] at he
      obtain ⟨h1, h2, h3⟩ := ih (k + 1) he
      exact ⟨by omega, by simp; omega, h3⟩

/-- C3 (amended): for the icon at index `i` of the ascending icon-id list
(counting every icon in the map, whether or not earlier icons rendered),
if its rendering succeeds, its frame is placed at
`x = iconSize * (i mod iconsPerRow)`, `y = iconSize * (i div iconsPerRow)`
with `w = h = 64`, under the 4-digit zero-padded key of its icon id,
where `iconsPerRow = atlasWidth / iconSize = 64` and `iconSize = 64`. -/
theorem buildAtlas_grid_position (render : ℕ → Bool) (iconIds : List ℕ)
    (hsorted : iconIds.Sorted (· ≤ ·)) (i : ℕ) (hi : i < iconIds.length)
    (hr : render (iconIds.getD i 0) = true) :
    iconsPerRow = 64 ∧ iconSize = 64 ∧
    (padStart4 (iconIds.getD i 0),
      Frame.mk (iconSize * (i % iconsPerRow)) (iconSize * (i / iconsPerRow)) 64 64)
      ∈ buildAtlasFrames render iconIds := by
  refine ⟨rfl, rfl, ?_⟩
  have hmem := mem_buildAtlasEntries render iconIds 0 i hi hr
  rw [Nat.zero_add] at hmem
  have : (padStart4 (iconIds.getD i 0),
      Frame.mk (iconSize * (i % iconsPerRow)) (iconSize * (i / iconsPerRow)) 64 64) =
      ((i, padStart4 (iconIds.getD i 0), frameFor i).2.1,
       (i, padStart4 (iconIds.getD i 0), frameFor i).2.2) := by
    simp [frameFor, iconSize, Nat.mul_comm]
  rw [this]
  exact List.mem_map_of_mem _ hmem

/-- Witness for C3's amended theorem: three icons, all rendering, index 1. -/
theorem buildAtlas_grid_position_witness :
    ([3, 5, 9] : List ℕ).Sorted (· ≤ ·) ∧ 1 < ([3, 5, 9] : List ℕ).length ∧
    ((fun _ => true) (([3, 5, 9] : List ℕ).getD 1 0) = true) ∧
    (iconsPerRow = 64 ∧ iconSize = 64 ∧
      (padStart4 (([3, 5, 9] : List ℕ).getD 1 0),
        Frame.mk (iconSize * (1 % iconsPerRow)) (iconSize * (1 / iconsPerRow)) 64 64)
        ∈ buildAtlasFrames (fun _ => true) [3, 5, 9]) := by
  refine ⟨by simp, by norm_num, rfl, ?_⟩
  exact buildAtlas_grid_position (fun _ => true) [3, 5, 9] (by simp) 1 (by norm_num) rfl

/-- C3 counterexample: icon ids `[1, 2]` where icon 1 fails to render and
icon 2 succeeds.  Icon 2 is then the 0th successfully rendered icon, so the
claim places its frame at `x = 64 * (0 % 64) = 0`, `y = 0`; the code instead
keeps the loop index `i = 1` of the full id list and places it at `x = 64`,
and no frame at `(0, 0)` exists. -/
theorem buildAtlas_grid_position_counterexample :
    buildAtlasFrames (fun n => n == 2) [1, 2] = [("0002", ⟨64, 0, 64, 64⟩)] ∧
    ("0002", (⟨0, 0, 64, 64⟩ : Frame)) ∉ buildAtlasFrames (fun n => n == 2) [1, 2] := by
  constructor
  · rfl
  · decide

/-- C10: whenever the number of icons does not exceed `maxIcons = 4096`,
every frame rectangle lies entirely inside the 4096×4096 atlas, and frames
of distinct processed icon indices occupy disjoint 64×64 cells. -/
theorem buildAtlas_frames_within_and_disjoint (render : ℕ → Bool) (iconIds : List ℕ)
    (hn : iconIds.length ≤ maxIcons) :
    (∀ e ∈ buildAtlasEntries render 0 iconIds,
      e.2.2.x + e.2.2.w ≤ atlasWidth ∧ e.2.2.y + e.2.2.h ≤ atlasHeight) ∧
    (∀ e1 ∈ buildAtlasEntries render 0 iconIds, ∀ e2 ∈ buildAtlasEntries render 0 iconIds,
      e1.1 ≠ e2.1 →
      e1.2.2.x + e1.2.2.w ≤ e2.2.2.x ∨ e2.2.2.x + e2.2.2.w ≤ e1.2.2.x ∨
      e1.2.2.y + e1.2.2.h ≤ e2.2.2.y ∨ e2.2.2.y + e2.2.2.h ≤ e1.2.2.y) := by
  have hmax : maxIcons = 4096 := rfl
  constructor
  · intro e he
    obtain ⟨-, h2, h3⟩ := buildAtlasEntries_shape render iconIds 0 e he
    rw [h3]
    have hlt : e.1 < 4096 := by omega
    simp only [frameFor, iconSize, iconsPerRow, atlasWidth, atlasHeight]
    omega
  · intro e1 he1 e2 he2 hne
    obtain ⟨-, h12, h13⟩ := buildAtlasEntries_shape render iconIds 0 e1 he1
    obtain ⟨-, h22, h23⟩ := buildAtlasEntries_shape render iconIds 0 e2 he2
    rw [h13, h23]
    simp only [frameFor, iconSize, iconsPerRow, atlasWidth, atlasHeight]
    omega

/-- Witness for C10: three icons, all rendering. -/
theorem buildAtlas_frames_within_and_disjoint_witness :
    ([0, 1, 2] : List ℕ).length ≤ maxIcons ∧
    ((∀ e ∈ buildAtlasEntries (fun _ => true) 0 [0, 1, 2],
        e.2.2.x + e.2.2.w ≤ atlasWidth ∧ e.2.2.y + e.2.2.h ≤ atlasHeight) ∧
      (∀ e1 ∈ buildAtlasEntries (fun _ => true) 0 [0, 1, 2],
        ∀ e2 ∈ buildAtlasEntries (fun _ => true) 0 [0, 1, 2],
        e1.1 ≠ e2.1 →
        e1.2.2.x + e1.2.2.w ≤ e2.2.2.x ∨ e2.2.2.x + e2.2.2.w ≤ e1.2.2.x ∨
        e1.2.2.y + e1.2.2.h ≤ e2.2.2.y ∨ e2.2.2.y + e2.2.2.h ≤ e1.2.2.y)) := by
  refine ⟨by norm_num [maxIcons, iconsPerRow, atlasWidth, atlasHeight, iconSize], ?_⟩
  exact buildAtlas_frames_within_and_disjoint (fun _ => true) [0, 1, 2]
    (by norm_num [maxIcons, iconsPerRow, atlasWidth, atlasHeight, iconSize])

end TimelineAtlas

namespace SheetExport

/-! ### Model of the Google Apps Script `doGet` exporter (`src/unnamed/part_000`)

`doGet` reads the `Export` tab as a rectangular array `vals`, takes row 0 as
headers, and builds one object per data row with `rowObj[headers[j]] =
vals[i][j]`.  Cell values are modelled as strings.  A JavaScript object is
modelled as a key–value list in property-insertion order: assigning to an
existing key overwrites its value in place, assigning a new key appends
(`jsSet`), and property lookup is `List.lookup`.  The final
`JSON.stringify` of the one-element array `[objects]` is elided: the value
returned is the array itself. -/

/-- JavaScript property assignment `obj[k] = v` on an insertion-ordered
key–value list. -/
def jsSet (obj : List (String × String)) (k v : String) : List (String × String) :=
  if obj.any (fun p => p.1 == k) then
    obj.map (fun p => if p.1 == k then (p.1, v) else p)
  else obj ++ [(k, v)]

/-- The inner loop of `doGet`: `for (j = 0; j < headers.length; j++)
rowObj[headers[j]] = vals[i][j]`. -/
def buildRowObj (headers row : List String) : List (String × String) :=
  (List.range headers.length).foldl
    (fun obj j => jsSet obj (headers.getD j "") (row.getD j "")) []

/-- `doGet`: row 0 is the header row, each later row becomes one object, and
the result is the one-element array `[objects]`.  `none` models the
exception thrown when the sheet data is empty (`vals[0]` undefined). -/
def doGet (vals : List (List String)) : Option (List (List (List (String × String)))) :=
  match vals with
  | [] => none
  | headers :: rows => some [rows.map (buildRowObj headers)]

theorem map_getD_range {α : Type _} (l : List α) (d : α) :
    (List.range l.length).map (fun j => l.getD j d) = l := by
  apply List.ext_getElem
  · simp
  · intro i h1 h2
    have hi : i < l.length := h2
    rw [List.getElem_map, List.getElem_range, List.getD_eq_getElem _ _ hi]

theorem lookup_of_mem_nodup_keys (L : List (String × String))
    (hnd : (L.map Prod.fst).Nodup) (k v : String) (hmem : (k, v) ∈ L) :
    L.lookup k = some v := by
  induction L with
  | nil => cases hmem
  | cons p rest ih =>
    obtain ⟨hhead, htail⟩ := List.nodup_cons.mp hnd
    by_cases hk : k = p.1
    · rcases List.mem_cons.mp hmem with heq | hmem2
      · rw [← heq]
        simp [List.lookup]
      · exact absurd (hk ▸ List.mem_map_of_mem Prod.fst hmem2) hhead
    · have hbeq : (k == p.1) = false := beq_eq_false_iff_ne.mpr hk
      rcases List.mem_cons.mp hmem with heq | hmem2
      · exact absurd (congrArg Prod.fst heq) hk
      · simp only [List.lookup, hbeq]
        exact ih htail hmem2

theorem buildRowObj_eq_of_nodup (headers row : List String) (hnodup : headers.Nodup) :
    buildRowObj headers row =
      (List.range headers.length).map (fun j => (headers.getD j "", row.getD j "")) := by
  suffices h : ∀ n, n ≤ headers.length →
      (List.range n).foldl
        (fun obj j => jsSet obj (headers.getD j "") (row.getD j "")) [] =
      (List.range n).map (fun j => (headers.getD j "", row.getD j "")) by
    exact h headers.length (le_refl _)
  intro n
  induction n with
  | zero => intro _; rfl
  | succ n ih =>
    intro hn
    rw [List.range_succ, List.foldl_append, List.map_append, ih (by omega)]
    simp only [List.foldl_cons, List.foldl_nil, List.map_cons, List.map_nil]
    have hkey : ((List.range n).map (fun j => (headers.getD j "", row.getD j ""))).any
        (fun p => p.1 == headers.getD n "") = false := by
      rw [List.any_eq_false]
      intro p hp
      obtain ⟨j, hj, rfl⟩ := List.mem_map.mp hp
      have hjn : j < n := List.mem_range.mp hj
      intro hcontra
      rw [beq_iff_eq] at hcontra
      have hj2 : j < headers.length := by omega
      have hn2 : n < headers.length := by omega
      rw [List.getD_eq_getElem _ _ hj2, List.getD_eq_getElem _ _ hn2] at hcontra
      have := (List.Nodup.getElem_inj_iff hnodup).mp hcontra
      omega
    unfold jsSet
    rw [hkey]
    simp

/-- C7 (amended): for a sheet whose `Export` tab has a header row with
pairwise distinct header values followed by `n` data rows, `doGet` returns a
one-element array whose single element is a list of exactly `n` objects in
sheet row order, and the `i`-th object maps the header of column `j` to the
value at data row `i`, column `j`.  (With duplicate header values the later
column overwrites the earlier one, which is what forces the distinctness
hypothesis.) -/
theorem doGet_maps_rows_to_objects (headers : List String) (rows : List (List String))
    (hnodup : headers.Nodup) :
    ∃ objects, doGet (headers :: rows) = some [objects] ∧
      objects.length = rows.length ∧
      ∀ i, ∀ hi : i < rows.length, ∀ j, ∀ hj : j < headers.length,
        List.lookup (headers.get ⟨j, hj⟩) (objects.getD i []) =
          some ((rows.get ⟨i, hi⟩).getD j "") := by
  refine ⟨rows.map (buildRowObj headers), rfl, by simp, ?_⟩
  intro i hi j hj
  have hobj : (rows.map (buildRowObj headers)).getD i [] =
      buildRowObj headers (rows.get ⟨i, hi⟩) := by
    rw [List.getD_eq_getElem _ _ (show i < (rows.map (buildRowObj headers)).length by
      simpa using hi)]
    simp
  rw [hobj, buildRowObj_eq_of_nodup headers _ hnodup]
  apply lookup_of_mem_nodup_keys
  · rw [List.map_map]
    have : (Prod.fst ∘ fun j => (headers.getD j "", (rows.get ⟨i, hi⟩).getD j "")) =
        fun j => headers.getD j "" := rfl
    rw [this, map_getD_range]
    exact hnodup
  · have hjr : j ∈ List.range headers.length := List.mem_range.mpr hj
    have hmm := List.mem_map_of_mem
      (fun j => (headers.getD j "", (rows.get ⟨i, hi⟩).getD j "")) hjr
    have hget : headers.getD j "" = headers.get ⟨j, hj⟩ := List.getD_eq_getElem _ _ hj
    rw [← hget]
    exact hmm

/-- Witness for C7's amended theorem: headers `["a", "b"]`, two data rows. -/
theorem doGet_maps_rows_to_objects_witness :
    (["a", "b"] : List String).Nodup ∧
    (∃ objects, doGet [["a", "b"], ["1", "2"], ["3", "4"]] = some [objects] ∧
      objects.length = ([["1", "2"], ["3", "4"]] : List (List String)).length ∧
      ∀ i, ∀ hi : i < ([["1", "2"], ["3", "4"]] : List (List String)).length,
        ∀ j, ∀ hj : j < (["a", "b"] : List String).length,
        List.lookup ((["a", "b"] : List String).get ⟨j, hj⟩) (objects.getD i []) =
          some ((([["1", "2"], ["3", "4"]] : List (List String)).get ⟨i, hi⟩).getD j "")) := by
  refine ⟨by simp, ?_⟩
  exact doGet_maps_rows_to_objects ["a", "b"] [["1", "2"], ["3", "4"]] (by simp)

/-- C7 counterexample: with duplicate header values `["a", "a"]` and data
row `["1", "2"]`, the claim requires the object to map the header of column
0 to `"1"`, but the later assignment for column 1 overwrites it: the object
is `[("a", "2")]` and lookup yields `"2"`. -/
theorem doGet_duplicate_header_counterexample :
    doGet [["a", "a"], ["1", "2"]] = some [[[("a", "2")]]] ∧
    List.lookup "a" (buildRowObj ["a", "a"] ["1", "2"]) = some "2" ∧
    some "2" ≠ some ("1" : String) := by
  refine ⟨?_, ?_, by decide⟩
  · rfl
  · rfl

end SheetExport
